import Mathlib

/-!
Verification of the `async-counter` crate (`src/lib.rs`).

The crate provides a single type

  `Counter { value: Arc<AtomicUsize>, target: usize, waker: Arc<Mutex<Option<Waker>>> }`

with constructors `new`/`to`, mutations `inc`/`dec` (wrapping `fetch_add` /
`fetch_sub` followed by taking and waking a stored waker), and a `Future`
implementation whose `poll` resolves with the current value once it reaches
the target and otherwise stores the context's waker.

Shallow embedding conventions:
* `usize` values are naturals; the wrapping arithmetic of
  `fetch_add`/`fetch_sub` reduces modulo `2 ^ 64`.
* The two `Arc`-shared cells are modelled by an explicit heap: `natCells`
  holds `AtomicUsize` contents, `wakerCells` the `Option<Waker>` contents of
  the mutex-guarded slot, and `poisonCells` records whether that mutex is
  poisoned (the `.lock().expect(..)` calls panic exactly on a poisoned
  mutex, modelled as returning `none`).
* Wakers are modelled as abstract natural-number tokens; an operation's list
  of fired tokens records its `wake()` calls, in order.
-/

/-- Width of the modelled `usize`: wrapping arithmetic is modulo `2 ^ 64`. -/
def usizeSize : Nat := 2 ^ 64

/-- Resumption tokens modelling `Waker` handles. -/
abbrev Token := Nat

/-- Heap of `Arc`-shared cells. `natCells r` is the content of the
`AtomicUsize` cell at reference `r`, `wakerCells r` the content of the
`Mutex<Option<Waker>>` slot at `r`, `poisonCells r` whether that mutex is
poisoned, and `nextRef` the next fresh reference. -/
structure Heap where
  natCells : Nat → Nat
  wakerCells : Nat → Option Token
  poisonCells : Nat → Bool
  nextRef : Nat

/-- Heap with no allocations. -/
def Heap.empty : Heap :=
  { natCells := fun _ => 0
    wakerCells := fun _ => none
    poisonCells := fun _ => false
    nextRef := 0 }

/-- Store `v` in the `AtomicUsize` cell at reference `r`. -/
def Heap.setNat (h : Heap) (r v : Nat) : Heap :=
  { h with natCells := fun s => if s = r then v else h.natCells s }

/-- Store `w` in the waker slot at reference `r`. -/
def Heap.setWaker (h : Heap) (r : Nat) (w : Option Token) : Heap :=
  { h with wakerCells := fun s => if s = r then w else h.wakerCells s }

/-- The `Counter` handle: `value` and `waker` are references into the heap
(the `Arc` pointers), `target` is a plain `usize` held inline. -/
structure Counter where
  value : Nat
  target : Nat
  waker : Nat

/-- Embedding of `Counter::new(from, target)`: allocates a fresh
`AtomicUsize` cell holding `from` and a fresh, unpoisoned mutex slot
holding `None`, and returns the handle together with the grown heap. -/
def Counter.new (from_ target : Nat) (h : Heap) : Counter × Heap :=
  (⟨h.nextRef, target, h.nextRef⟩,
   { natCells := fun s => if s = h.nextRef then from_ else h.natCells s
     wakerCells := fun s => if s = h.nextRef then none else h.wakerCells s
     poisonCells := fun s => if s = h.nextRef then false else h.poisonCells s
     nextRef := h.nextRef + 1 })

/-- Embedding of `Counter::to(target)`: `Self::new(0, target)`. -/
def Counter.to (target : Nat) (h : Heap) : Counter × Heap :=
  Counter.new 0 target h

/-- Atomic load of the shared value (`self.value.load(SeqCst)`). -/
def Counter.readValue (c : Counter) (h : Heap) : Nat :=
  h.natCells c.value

/-- Wrapping addition of `usize` (`fetch_add`). -/
def wrapAdd (a b : Nat) : Nat := (a + b) % usizeSize

/-- Wrapping subtraction of `usize` (`fetch_sub`): adding the two's
complement of `b`. -/
def wrapSub (a b : Nat) : Nat := (a + (usizeSize - b % usizeSize)) % usizeSize

/-- Embedding of `Counter::inc(rhs)`: `fetch_add(rhs, SeqCst)` on the value
cell, then `self.waker.lock().expect(..)` (panics, modelled as `none`, iff
the mutex is poisoned) and `.take()`: a stored waker is removed and woken.
Returns the resulting heap and the list of fired tokens. -/
def Counter.inc (c : Counter) (rhs : Nat) (h : Heap) :
    Option (Heap × List Token) :=
  let h1 := h.setNat c.value (wrapAdd (h.natCells c.value) rhs)
  if h1.poisonCells c.waker then none
  else
    match h1.wakerCells c.waker with
    | some w => some (h1.setWaker c.waker none, [w])
    | none => some (h1, [])

/-- Embedding of `Counter::dec(rhs)`: identical to `inc` with
`fetch_sub(rhs, SeqCst)` in place of `fetch_add`. -/
def Counter.dec (c : Counter) (rhs : Nat) (h : Heap) :
    Option (Heap × List Token) :=
  let h1 := h.setNat c.value (wrapSub (h.natCells c.value) rhs)
  if h1.poisonCells c.waker then none
  else
    match h1.wakerCells c.waker with
    | some w => some (h1.setWaker c.waker none, [w])
    | none => some (h1, [])

/-- Result type of `Future::poll`, specialised to `Output = usize`. -/
inductive Poll where
  | Ready : Nat → Poll
  | Pending : Poll
deriving DecidableEq, Repr

/-- Embedding of `<Counter as Future>::poll`: load the value; if
`value >= target`, return `Ready(value)` leaving the heap untouched;
otherwise lock the waker mutex (panicking, modelled as `none`, iff it is
poisoned) and overwrite the slot with the context's waker `tok`, returning
`Pending`. The fired-token list records `wake()` calls; `poll`'s body
contains none, so it is `[]` in both branches. -/
def Counter.poll (c : Counter) (tok : Token) (h : Heap) :
    Option (Poll × Heap × List Token) :=
  let value := h.natCells c.value
  if value ≥ c.target then some (Poll.Ready value, h, [])
  else if h.poisonCells c.waker then none
  else some (Poll.Pending, h.setWaker c.waker (some tok), [])

/-- Embedding of the derived `Clone`: `Arc::clone` on `value` and `waker`
yields handles to the same heap cells (the same references), and the
`usize` target is copied. -/
def Counter.clone (c : Counter) : Counter :=
  { value := c.value, target := c.target, waker := c.waker }

/-- Number of tokens held by the waker slot at reference `r`. -/
def slotCount (h : Heap) (r : Nat) : Nat :=
  match h.wakerCells r with
  | some _ => 1
  | none => 0

/-- A single producer step: either `Counter::inc` or `Counter::dec`. -/
inductive Op where
  | inc : Nat → Op
  | dec : Nat → Op
deriving DecidableEq

/-- Apply one operation through a given handle. -/
def applyOp (c : Counter) (op : Op) (h : Heap) : Option (Heap × List Token) :=
  match op with
  | Op.inc δ => Counter.inc c δ h
  | Op.dec δ => Counter.dec c δ h

/-- Run a finite sequence of operations, each through its own handle. -/
def applyOps : List (Counter × Op) → Heap → Option Heap
  | [], h => some h
  | (c, op) :: rest, h =>
      match applyOp c op h with
      | none => none
      | some (h2, _) => applyOps rest h2

/-- Sum of all increment deltas in a sequence. -/
def sumInc : List (Counter × Op) → Nat
  | [] => 0
  | (_, Op.inc δ) :: rest => δ + sumInc rest
  | (_, Op.dec _) :: rest => sumInc rest

/-- Sum of all decrement deltas in a sequence. -/
def sumDec : List (Counter × Op) → Nat
  | [] => 0
  | (_, Op.inc _) :: rest => sumDec rest
  | (_, Op.dec δ) :: rest => δ + sumDec rest

/-- All handles in the sequence are clones of the same logical counter as
`c`: they share the value cell and the waker slot. -/
def sameHandles (c : Counter) (l : List (Counter × Op)) : Prop :=
  ∀ p ∈ l, p.1.value = c.value ∧ p.1.waker = c.waker

instance sameHandlesDec (c : Counter) (l : List (Counter × Op)) :
    Decidable (sameHandles c l) :=
  inferInstanceAs (Decidable (∀ p ∈ l, p.1.value = c.value ∧ p.1.waker = c.waker))

-- Basic frame lemmas for the heap operations.

@[simp]
theorem Heap.setNat_natCells_self (h : Heap) (r v : Nat) :
    (h.setNat r v).natCells r = v := by
  simp [Heap.setNat]

@[simp]
theorem Heap.setNat_wakerCells (h : Heap) (r v : Nat) :
    (h.setNat r v).wakerCells = h.wakerCells := rfl

@[simp]
theorem Heap.setNat_poisonCells (h : Heap) (r v : Nat) :
    (h.setNat r v).poisonCells = h.poisonCells := rfl

@[simp]
theorem Heap.setWaker_natCells (h : Heap) (r : Nat) (w : Option Token) :
    (h.setWaker r w).natCells = h.natCells := rfl

@[simp]
theorem Heap.setWaker_wakerCells_self (h : Heap) (r : Nat) (w : Option Token) :
    (h.setWaker r w).wakerCells r = w := by
  simp [Heap.setWaker]

@[simp]
theorem Heap.setWaker_poisonCells (h : Heap) (r : Nat) (w : Option Token) :
    (h.setWaker r w).poisonCells = h.poisonCells := rfl

-- Helper lemmas about the effect of `inc`/`dec` on the shared value.

theorem inc_readValue (c : Counter) (δ : Nat) (h h2 : Heap) (f : List Token)
    (hrun : Counter.inc c δ h = some (h2, f)) :
    Counter.readValue c h2 = wrapAdd (Counter.readValue c h) δ := by
  by_cases hpois : h.poisonCells c.waker
  · simp [Counter.inc, hpois] at hrun
  · rcases hw : h.wakerCells c.waker with _ | w
    · simp [Counter.inc, hpois, hw] at hrun
      obtain ⟨rfl, rfl⟩ := hrun
      simp [Counter.readValue]
    · simp [Counter.inc, hpois, hw] at hrun
      obtain ⟨rfl, rfl⟩ := hrun
      simp [Counter.readValue]

theorem dec_readValue (c : Counter) (δ : Nat) (h h2 : Heap) (f : List Token)
    (hrun : Counter.dec c δ h = some (h2, f)) :
    Counter.readValue c h2 = wrapSub (Counter.readValue c h) δ := by
  by_cases hpois : h.poisonCells c.waker
  · simp [Counter.dec, hpois] at hrun
  · rcases hw : h.wakerCells c.waker with _ | w
    · simp [Counter.dec, hpois, hw] at hrun
      obtain ⟨rfl, rfl⟩ := hrun
      simp [Counter.readValue]
    · simp [Counter.dec, hpois, hw] at hrun
      obtain ⟨rfl, rfl⟩ := hrun
      simp [Counter.readValue]

theorem usizeSize_pos : 0 < usizeSize := by norm_num [usizeSize]

theorem wrapAdd_cast (a b : Nat) :
    ((wrapAdd a b : Nat) : ZMod usizeSize) = (a : ZMod usizeSize) + b := by
  unfold wrapAdd
  rw [ZMod.natCast_mod]
  push_cast
  ring

theorem wrapSub_cast (a b : Nat) :
    ((wrapSub a b : Nat) : ZMod usizeSize) = (a : ZMod usizeSize) - b := by
  unfold wrapSub
  rw [ZMod.natCast_mod]
  have hb : b % usizeSize ≤ usizeSize := (Nat.mod_lt b usizeSize_pos).le
  push_cast [Nat.cast_sub hb, ZMod.natCast_mod]
  rw [ZMod.natCast_self]
  ring

/-- C1: a single poll behaves as the two-branch contract: it reads the
shared value; if it is at least the target it resolves immediately
(`Ready`) with that current value, leaving the heap — in particular the
suspension slot — untouched (no token stored); otherwise it overwrites the
suspension slot with the fresh resumption token `tok` (whatever was stored
there before) and returns `Pending`. -/
theorem C1_poll_two_branch (c : Counter) (tok : Token) (h : Heap)
    (hp : h.poisonCells c.waker = false) :
    (c.target ≤ Counter.readValue c h →
       Counter.poll c tok h =
         some (Poll.Ready (Counter.readValue c h), h, [])) ∧
    (Counter.readValue c h < c.target →
       Counter.poll c tok h =
         some (Poll.Pending, h.setWaker c.waker (some tok), [])) := by
  constructor
  · intro hge
    simp [Counter.poll, Counter.readValue, hge]
    exact hge
  · intro hlt
    simp [Counter.poll, Counter.readValue, Nat.not_le.mpr hlt, hp]
    exact hlt

/-- Witness for C1 at a concrete state: value 0, target 10, empty slot. -/
theorem C1_poll_two_branch_witness :
    Heap.empty.poisonCells 0 = false ∧
    Counter.poll ⟨0, 10, 0⟩ 7 Heap.empty =
      some (Poll.Pending, Heap.empty.setWaker 0 (some 7), []) :=
  ⟨rfl, (C1_poll_two_branch ⟨0, 10, 0⟩ 7 Heap.empty rfl).2 (by decide)⟩

/-- C2: `inc` adds the delta to the shared value and `dec` subtracts it
(wrapping `usize` arithmetic); immediately after the arithmetic update the
operation checks the suspension slot: if a token `w` is present it removes
it (the slot is left empty) and fires exactly it, and if no token is
present it does nothing further (the heap change is exactly the value
update and nothing is fired). -/
theorem C2_inc_dec_contract (c : Counter) (δ : Nat) (h : Heap)
    (hp : h.poisonCells c.waker = false) :
    (∀ w, h.wakerCells c.waker = some w →
       Counter.inc c δ h =
         some ((h.setNat c.value
                  (wrapAdd (h.natCells c.value) δ)).setWaker c.waker none,
               [w]) ∧
       Counter.dec c δ h =
         some ((h.setNat c.value
                  (wrapSub (h.natCells c.value) δ)).setWaker c.waker none,
               [w])) ∧
    (h.wakerCells c.waker = none →
       Counter.inc c δ h =
         some (h.setNat c.value (wrapAdd (h.natCells c.value) δ), []) ∧
       Counter.dec c δ h =
         some (h.setNat c.value (wrapSub (h.natCells c.value) δ), [])) := by
  constructor
  · intro w hw
    constructor
    · simp [Counter.inc, hp, hw]
    · simp [Counter.dec, hp, hw]
  · intro hw
    constructor
    · simp [Counter.inc, hp, hw]
    · simp [Counter.dec, hp, hw]

/-- Witness for C2 at a concrete state: a token 9 stored, value 0. -/
theorem C2_inc_dec_contract_witness :
    (Heap.empty.setWaker 0 (some 9)).poisonCells 0 = false ∧
    (Heap.empty.setWaker 0 (some 9)).wakerCells 0 = some 9 ∧
    Counter.inc ⟨0, 5, 0⟩ 3 (Heap.empty.setWaker 0 (some 9)) =
      some (((Heap.empty.setWaker 0 (some 9)).setNat 0
               (wrapAdd ((Heap.empty.setWaker 0 (some 9)).natCells 0) 3)).setWaker
               0 none,
            [9]) :=
  ⟨rfl, by decide,
   ((C2_inc_dec_contract ⟨0, 5, 0⟩ 3 (Heap.empty.setWaker 0 (some 9)) rfl).1 9
      (by decide)).1⟩

/-- C3: whenever a poll resolves with `Ready v`, `v` is the counter's
current value at that poll and `v ≥ target`; moreover if a single
increment jumps the value from strictly below the target to strictly
above it, the next poll resolves with the overshot value, which is never
the target exactly. -/
theorem C3_ready_value (c : Counter) (tok : Token) (h h2 : Heap) (v : Nat)
    (f : List Token)
    (hres : Counter.poll c tok h = some (Poll.Ready v, h2, f)) :
    (v = Counter.readValue c h ∧ c.target ≤ v) ∧
    ∀ (c1 : Counter) (δ : Nat) (h0 h1 : Heap) (f1 : List Token) (tk : Token),
      Counter.readValue c1 h0 < c1.target →
      Counter.inc c1 δ h0 = some (h1, f1) →
      c1.target < Counter.readValue c1 h1 →
      Counter.poll c1 tk h1 =
        some (Poll.Ready (Counter.readValue c1 h1), h1, []) ∧
      Counter.readValue c1 h1 ≠ c1.target := by
  constructor
  · by_cases hge : c.target ≤ h.natCells c.value
    · simp [Counter.poll, hge] at hres
      obtain ⟨h1, -, -⟩ := hres
      exact ⟨h1.symm, h1 ▸ hge⟩
    · by_cases hpois : h.poisonCells c.waker
      · simp [Counter.poll, hge, hpois] at hres
      · simp [Counter.poll, hge, hpois] at hres
  · intro c1 δ h0 h1 f1 tk hlt hstep hgt
    refine ⟨?_, ne_of_gt hgt⟩
    simp [Counter.poll, Counter.readValue, le_of_lt hgt]
    exact le_of_lt hgt

/-- Witness for C3 at a concrete resolving poll: value 5, target 2. -/
theorem C3_ready_value_witness :
    Counter.poll ⟨0, 2, 0⟩ 1 (Heap.empty.setNat 0 5) =
      some (Poll.Ready 5, Heap.empty.setNat 0 5, []) ∧
    (5 = Counter.readValue ⟨0, 2, 0⟩ (Heap.empty.setNat 0 5) ∧
       (⟨0, 2, 0⟩ : Counter).target ≤ 5) :=
  ⟨rfl, (C3_ready_value ⟨0, 2, 0⟩ 1 (Heap.empty.setNat 0 5)
           (Heap.empty.setNat 0 5) 5 [] rfl).1⟩

/-- C4: the suspension slot holds at most one token at every instant
(`slotCount ≤ 1` on every heap), and a poll that stores a new token into a
slot already holding `t` overwrites it: afterwards the slot holds exactly
the new token, and nothing is fired during the poll (its fired-token list
is empty) — the old token is silently discarded, there is no queue. -/
theorem C4_single_slot_overwrite (c : Counter) (t tok : Token) (h : Heap)
    (hs : h.wakerCells c.waker = some t)
    (hlt : Counter.readValue c h < c.target)
    (hp : h.poisonCells c.waker = false) :
    Counter.poll c tok h =
      some (Poll.Pending, h.setWaker c.waker (some tok), []) ∧
    (h.setWaker c.waker (some tok)).wakerCells c.waker = some tok ∧
    (∀ h2 r, slotCount h2 r ≤ 1) := by
  refine ⟨?_, by simp, ?_⟩
  · simp [Counter.poll, Counter.readValue, Nat.not_le.mpr hlt, hp]
    exact hlt
  · intro h2 r
    unfold slotCount
    rcases h2.wakerCells r with _ | w <;> simp

/-- Witness for C4 at a concrete state: token 4 stored, value 0, target 9. -/
theorem C4_single_slot_overwrite_witness :
    (Heap.empty.setWaker 0 (some 4)).wakerCells 0 = some 4 ∧
    Counter.readValue ⟨0, 9, 0⟩ (Heap.empty.setWaker 0 (some 4)) < 9 ∧
    (Heap.empty.setWaker 0 (some 4)).poisonCells 0 = false ∧
    Counter.poll ⟨0, 9, 0⟩ 8 (Heap.empty.setWaker 0 (some 4)) =
      some (Poll.Pending,
            (Heap.empty.setWaker 0 (some 4)).setWaker 0 (some 8), []) :=
  ⟨by decide, by decide, rfl,
   (C4_single_slot_overwrite ⟨0, 9, 0⟩ 4 8 (Heap.empty.setWaker 0 (some 4))
      (by decide) (by decide) rfl).1⟩

/-- C5: for every initial heap and every finite sequence of increments and
decrements applied through handles of the same logical counter, the value
read afterwards equals `initial + sum(increments) - sum(decrements)` in
the wrap-around arithmetic of the unsigned machine-integer representation
(`ZMod (2 ^ 64)`). -/
theorem C5_net_sum (c : Counter) (l : List (Counter × Op)) (h h2 : Heap)
    (hsame : sameHandles c l)
    (hrun : applyOps l h = some h2) :
    (Counter.readValue c h2 : ZMod usizeSize) =
      (Counter.readValue c h : ZMod usizeSize) + sumInc l - sumDec l := by
  induction l generalizing h with
  | nil =>
    simp [applyOps] at hrun
    subst hrun
    simp [sumInc, sumDec]
  | cons p rest ih =>
    obtain ⟨c1, op⟩ := p
    have hc1 : c1.value = c.value ∧ c1.waker = c.waker :=
      hsame (c1, op) (List.mem_cons_self _ _)
    have hrest : sameHandles c rest := fun q hq =>
      hsame q (List.mem_cons_of_mem _ hq)
    cases op with
    | inc δ =>
      rcases hstep : Counter.inc c1 δ h with _ | ⟨h3, f⟩
      · simp [applyOps, applyOp, hstep] at hrun
      · simp only [applyOps, applyOp, hstep] at hrun
        have hv : Counter.readValue c1 h3 =
            wrapAdd (Counter.readValue c1 h) δ :=
          inc_readValue c1 δ h h3 f hstep
        have hmid := ih h3 hrest hrun
        rw [hmid]
        have hval : Counter.readValue c h3 =
            wrapAdd (Counter.readValue c h) δ := by
          simpa [Counter.readValue, hc1.1] using hv
        rw [hval, wrapAdd_cast]
        simp [sumInc, sumDec]
        ring
    | dec δ =>
      rcases hstep : Counter.dec c1 δ h with _ | ⟨h3, f⟩
      · simp [applyOps, applyOp, hstep] at hrun
      · simp only [applyOps, applyOp, hstep] at hrun
        have hv : Counter.readValue c1 h3 =
            wrapSub (Counter.readValue c1 h) δ :=
          dec_readValue c1 δ h h3 f hstep
        have hmid := ih h3 hrest hrun
        rw [hmid]
        have hval : Counter.readValue c h3 =
            wrapSub (Counter.readValue c h) δ := by
          simpa [Counter.readValue, hc1.1] using hv
        rw [hval, wrapSub_cast]
        simp [sumInc, sumDec]
        ring

/-- Witness for C5: increment 5 then decrement 2 on a fresh counter. -/
theorem C5_net_sum_witness :
    sameHandles ⟨0, 10, 0⟩
      [(⟨0, 10, 0⟩, Op.inc 5), (⟨0, 10, 0⟩, Op.dec 2)] ∧
    applyOps [(⟨0, 10, 0⟩, Op.inc 5), (⟨0, 10, 0⟩, Op.dec 2)] Heap.empty =
      some ((Heap.empty.setNat 0 (wrapAdd 0 5)).setNat 0
              (wrapSub (wrapAdd 0 5) 2)) ∧
    (Counter.readValue ⟨0, 10, 0⟩
        ((Heap.empty.setNat 0 (wrapAdd 0 5)).setNat 0
           (wrapSub (wrapAdd 0 5) 2)) : ZMod usizeSize) =
      (Counter.readValue ⟨0, 10, 0⟩ Heap.empty : ZMod usizeSize) +
        sumInc [(⟨0, 10, 0⟩, Op.inc 5), (⟨0, 10, 0⟩, Op.dec 2)] -
        sumDec [(⟨0, 10, 0⟩, Op.inc 5), (⟨0, 10, 0⟩, Op.dec 2)] :=
  ⟨by decide, rfl,
   C5_net_sum ⟨0, 10, 0⟩ [(⟨0, 10, 0⟩, Op.inc 5), (⟨0, 10, 0⟩, Op.dec 2)]
     Heap.empty _ (by decide) rfl⟩

/-- C6: cloning a counter copies the target (an independent, equal copy)
while the value cell and the suspension slot of the clone are the very
same heap references as the original's; consequently an increment through
the clone is observed by a read through the origin handle, and an
increment through the origin is observed by a read through the clone. -/
theorem C6_clone_shares_state (c : Counter) (δ : Nat) (h h2 : Heap)
    (f : List Token)
    (hrun : Counter.inc (Counter.clone c) δ h = some (h2, f)) :
    (Counter.clone c).target = c.target ∧
    (Counter.clone c).value = c.value ∧
    (Counter.clone c).waker = c.waker ∧
    Counter.readValue c h2 = wrapAdd (Counter.readValue c h) δ ∧
    ∀ h3 h4 f2, Counter.inc c δ h3 = some (h4, f2) →
      Counter.readValue (Counter.clone c) h4 =
        wrapAdd (Counter.readValue (Counter.clone c) h3) δ := by
  refine ⟨rfl, rfl, rfl, ?_, ?_⟩
  · exact inc_readValue (Counter.clone c) δ h h2 f hrun
  · intro h3 h4 f2 hrun2
    exact inc_readValue c δ h3 h4 f2 hrun2

/-- Witness for C6: incrementing by 2 through a clone of a fresh counter. -/
theorem C6_clone_shares_state_witness :
    Counter.inc (Counter.clone ⟨0, 5, 0⟩) 2 Heap.empty =
      some (Heap.empty.setNat 0 (wrapAdd 0 2), []) ∧
    Counter.readValue ⟨0, 5, 0⟩ (Heap.empty.setNat 0 (wrapAdd 0 2)) =
      wrapAdd (Counter.readValue ⟨0, 5, 0⟩ Heap.empty) 2 :=
  ⟨rfl,
   (C6_clone_shares_state ⟨0, 5, 0⟩ 2 Heap.empty
      (Heap.empty.setNat 0 (wrapAdd 0 2)) [] rfl).2.2.2.1⟩

/-- C7: increment and decrement are total, always-succeeding operations:
under the precondition that the waker mutex is not poisoned (no panic
occurred while it was held), both return a result — the panic branch of
the `lock().expect(..)` is never taken. -/
theorem C7_mutations_total (c : Counter) (δ : Nat) (h : Heap)
    (hp : h.poisonCells c.waker = false) :
    (Counter.inc c δ h).isSome ∧ (Counter.dec c δ h).isSome := by
  constructor
  · unfold Counter.inc
    simp only [Heap.setNat_poisonCells, hp, Bool.false_eq_true, if_false]
    rcases hw : (h.setNat c.value
        (wrapAdd (h.natCells c.value) δ)).wakerCells c.waker with _ | w <;>
      simp [hw]
  · unfold Counter.dec
    simp only [Heap.setNat_poisonCells, hp, Bool.false_eq_true, if_false]
    rcases hw : (h.setNat c.value
        (wrapSub (h.natCells c.value) δ)).wakerCells c.waker with _ | w <;>
      simp [hw]

/-- Witness for C7 on a fresh, unpoisoned state. -/
theorem C7_mutations_total_witness :
    Heap.empty.poisonCells 0 = false ∧
    (Counter.inc ⟨0, 5, 0⟩ 1 Heap.empty).isSome ∧
    (Counter.dec ⟨0, 5, 0⟩ 1 Heap.empty).isSome :=
  ⟨rfl, C7_mutations_total ⟨0, 5, 0⟩ 1 Heap.empty rfl⟩

/-- C8: the convenience constructor `Counter::to(target)` produces exactly
the result of the two-argument constructor `Counter::new(0, target)`, on
every heap. -/
theorem C8_to_eq_new (target : Nat) (h : Heap) :
    Counter.to target h = Counter.new 0 target h := rfl

/-- C9: a poll that resolves (value at least target) returns the heap
itself, entirely unchanged: the value, the target and the suspension slot
are untouched, so any token already stored in the slot remains there,
neither cleared nor fired (the fired-token list is empty). -/
theorem C9_resolving_poll_frame (c : Counter) (tok : Token) (h : Heap)
    (hge : c.target ≤ Counter.readValue c h) :
    Counter.poll c tok h =
      some (Poll.Ready (Counter.readValue c h), h, []) := by
  simp [Counter.poll, Counter.readValue, hge]
  exact hge

/-- Witness for C9: a resolving poll over a heap that holds a stored token
42; the returned heap is that very heap, token still in place. -/
theorem C9_resolving_poll_frame_witness :
    (⟨0, 0, 0⟩ : Counter).target ≤
      Counter.readValue ⟨0, 0, 0⟩ (Heap.empty.setWaker 0 (some 42)) ∧
    Counter.poll ⟨0, 0, 0⟩ 3 (Heap.empty.setWaker 0 (some 42)) =
      some (Poll.Ready
              (Counter.readValue ⟨0, 0, 0⟩ (Heap.empty.setWaker 0 (some 42))),
            Heap.empty.setWaker 0 (some 42), []) :=
  ⟨by decide,
   C9_resolving_poll_frame ⟨0, 0, 0⟩ 3 (Heap.empty.setWaker 0 (some 42))
     (by decide)⟩

/-- C10: a freshly constructed counter, via either constructor, has an
empty suspension slot, and the first mutation (increment or decrement)
after construction fires no wake. -/
theorem C10_fresh_slot_empty (from_ target δ : Nat) (h : Heap) :
    (Counter.new from_ target h).2.wakerCells
        (Counter.new from_ target h).1.waker = none ∧
    (Counter.to target h).2.wakerCells (Counter.to target h).1.waker = none ∧
    (∃ h2, Counter.inc (Counter.new from_ target h).1 δ
        (Counter.new from_ target h).2 = some (h2, [])) ∧
    (∃ h2, Counter.dec (Counter.new from_ target h).1 δ
        (Counter.new from_ target h).2 = some (h2, [])) := by
  refine ⟨by simp [Counter.new], by simp [Counter.to, Counter.new], ?_, ?_⟩
  · refine ⟨(Counter.new from_ target h).2.setNat h.nextRef
      (wrapAdd from_ δ), ?_⟩
    simp [Counter.inc, Counter.new]
  · refine ⟨(Counter.new from_ target h).2.setNat h.nextRef
      (wrapSub from_ δ), ?_⟩
    simp [Counter.dec, Counter.new]
